import Mathlib

/-!
Verification of the SonarTS core: the structural tree-equivalence algorithm
(`areEquivalent.ts`) and the analysis server (`SonarTsServer`): configuration
resolution, per-file configuration cache, per-configuration language-service
cache and the request dispatcher.

The embedding is shallow: TypeScript syntax nodes become an inductive tree,
the server's mutable fields become an explicit state record threaded through
the handlers, and the external collaborators (file system, language service,
rule evaluation) become explicit function parameters gathered in `Env`.
-/

namespace SonarTS

/-- TypeScript syntax kinds, as a closed tagged union: the nine kinds that the
source's `COMPARED_BY_TEXT` set enumerates are named constructors, every other
member of `ts.SyntaxKind` is `other code`. -/
inductive SyntaxKind where
  | numericLiteral
  | stringLiteral
  | regularExpressionLiteral
  | identifier
  | noSubstitutionTemplateLiteral
  | templateHead
  | templateMiddle
  | templateTail
  | jsxText
  | other (code : Nat)
deriving DecidableEq, Repr

/-- A syntax-tree node: a kind, the ordered immediate children
(`node.getChildren()`), and the raw text (`node.getText()`, which the
algorithm only ever reads on childless nodes). -/
inductive Node where
  | mk (kind : SyntaxKind) (children : List Node) (text : String)
deriving Repr

def Node.kind : Node → SyntaxKind
  | .mk k _ _ => k

def Node.getChildren : Node → List Node
  | .mk _ c _ => c

def Node.getText : Node → String
  | .mk _ _ t => t

/-- Embeds `node.getChildCount()`. -/
def Node.getChildCount (n : Node) : Nat :=
  n.getChildren.length

@[simp] theorem Node.kind_mk (k : SyntaxKind) (c : List Node) (t : String) :
    (Node.mk k c t).kind = k := rfl

@[simp] theorem Node.getChildren_mk (k : SyntaxKind) (c : List Node) (t : String) :
    (Node.mk k c t).getChildren = c := rfl

@[simp] theorem Node.getText_mk (k : SyntaxKind) (c : List Node) (t : String) :
    (Node.mk k c t).getText = t := rfl

@[simp] theorem Node.getChildCount_mk (k : SyntaxKind) (c : List Node) (t : String) :
    (Node.mk k c t).getChildCount = c.length := rfl

/-- The source's `COMPARED_BY_TEXT` set: literals and identifiers compared by
actual text. -/
def COMPARED_BY_TEXT (k : SyntaxKind) : Bool :=
  match k with
  | .numericLiteral => true
  | .stringLiteral => true
  | .regularExpressionLiteral => true
  | .identifier => true
  | .noSubstitutionTemplateLiteral => true
  | .templateHead => true
  | .templateMiddle => true
  | .templateTail => true
  | .jsxText => true
  | .other _ => false

mutual

/-- Embeds `areEquivalentNodes(first, second, ignoreLiterals)`: kind mismatch
and child-count mismatch short-circuit to false; childless compared-by-text
nodes compare by raw text unless `ignoreLiterals` is set and the kind is a
string or numeric literal (the source's `is(first, StringLiteral,
NumericLiteral)` check); otherwise the ordered child lists are compared via
`areEquivalent`, whose array branch is inlined here (length check plus
element-wise `every`). -/
def areEquivalentNodes (first second : Node) (ignoreLiterals : Bool) : Bool :=
  match first, second with
  | .mk k1 c1 t1, .mk k2 c2 t2 =>
    if k1 ≠ k2 then false
    else if c1.length ≠ c2.length then false
    else if c1.length == 0 && COMPARED_BY_TEXT k1 then
      if ignoreLiterals && (k1 == SyntaxKind.stringLiteral || k1 == SyntaxKind.numericLiteral) then
        true
      else t1 == t2
    else
      (c1.length == c2.length) && everyEquivalent c1 c2 ignoreLiterals

/-- Embeds `first.every((leftNode, index) => areEquivalent(leftNode,
second[index], ignoreLiterals))`, the element-wise walk over two child lists
(only reached behind an equal-length guard; the uneven cases are unreachable
there and yield false). -/
def everyEquivalent : List Node → List Node → Bool → Bool
  | [], _, _ => true
  | _ :: _, [], _ => false
  | x :: xs, y :: ys, ignoreLiterals =>
    areEquivalentNodes x y ignoreLiterals && everyEquivalent xs ys ignoreLiterals

end

/-- The union argument type `ts.Node | ts.Node[]` of `areEquivalent`. -/
inductive NodeOrArray where
  | node (n : Node)
  | array (nodes : List Node)

/-- Embeds the exported `areEquivalent(first, second, ignoreLiterals)`: two
single nodes go to `areEquivalentNodes`, two arrays compare length and then
element-wise, and mixed argument shapes return false. -/
def areEquivalent : NodeOrArray → NodeOrArray → Bool → Bool
  | .node f, .node s, ignoreLiterals => areEquivalentNodes f s ignoreLiterals
  | .array f, .array s, ignoreLiterals =>
    (f.length == s.length) && everyEquivalent f s ignoreLiterals
  | _, _, _ => false

/-! ### Basic lemmas about the equivalence engine -/

theorem areEquivalentNodes_mk (k1 k2 : SyntaxKind) (c1 c2 : List Node) (t1 t2 : String)
    (ig : Bool) :
    areEquivalentNodes (.mk k1 c1 t1) (.mk k2 c2 t2) ig =
      (if k1 ≠ k2 then false
       else if c1.length ≠ c2.length then false
       else if c1.length == 0 && COMPARED_BY_TEXT k1 then
         if ig && (k1 == SyntaxKind.stringLiteral || k1 == SyntaxKind.numericLiteral) then true
         else t1 == t2
       else (c1.length == c2.length) && everyEquivalent c1 c2 ig) := rfl

/-- The expression inlined in the recursive branch of `areEquivalentNodes`
is exactly the array branch of the exported `areEquivalent`, matching the
source's call `areEquivalent(first.getChildren(), second.getChildren(),
ignoreLiterals)`. -/
theorem areEquivalent_array_eq (l1 l2 : List Node) (ig : Bool) :
    areEquivalent (.array l1) (.array l2) ig =
      ((l1.length == l2.length) && everyEquivalent l1 l2 ig) := rfl

/-- Boolean equality `==` is symmetric for any lawful instance. -/
theorem beq_swap {α : Type _} [BEq α] [LawfulBEq α] (a b : α) : (a == b) = (b == a) := by
  by_cases h : a = b
  · subst h; rfl
  · simp [h, Ne.symm h]

theorem everyEquivalent_self_of (ig : Bool) :
    ∀ l : List Node, (∀ x ∈ l, areEquivalentNodes x x ig = true) →
      everyEquivalent l l ig = true
  | [], _ => rfl
  | x :: xs, h => by
    rw [everyEquivalent]
    rw [h x (List.mem_cons_self x xs),
      everyEquivalent_self_of ig xs (fun y hy => h y (List.mem_cons_of_mem x hy))]
    rfl

/-- Every node is equivalent to itself, for both values of `ignoreLiterals`. -/
theorem areEquivalentNodes_self (n : Node) (ig : Bool) : areEquivalentNodes n n ig = true := by
  have H : ∀ (N : Nat) (n : Node), sizeOf n ≤ N → areEquivalentNodes n n ig = true := by
    intro N
    induction N with
    | zero =>
      intro n hn
      cases n with
      | mk k c t => simp [Node.mk.sizeOf_spec] at hn
    | succ N ih =>
      intro n hn
      cases n with
      | mk k c t =>
        have hc : everyEquivalent c c ig = true := by
          apply everyEquivalent_self_of
          intro x hx
          apply ih
          have h1 : sizeOf x < sizeOf c := List.sizeOf_lt_of_mem hx
          have h2 : sizeOf (Node.mk k c t) = 1 + sizeOf k + sizeOf c + sizeOf t :=
            Node.mk.sizeOf_spec k c t
          omega
        rw [areEquivalentNodes_mk]
        rw [if_neg (by simp), if_neg (by simp)]
        by_cases h0 : (c.length == 0 && COMPARED_BY_TEXT k) = true
        · rw [if_pos h0]
          by_cases hlit :
              (ig && (k == SyntaxKind.stringLiteral || k == SyntaxKind.numericLiteral)) = true
          · rw [if_pos hlit]
          · rw [if_neg hlit]; exact beq_self_eq_true t
        · rw [if_neg h0, hc]; simp
  exact H (sizeOf n) n le_rfl

theorem everyEquivalent_swap_of (ig : Bool) :
    ∀ l1 l2 : List Node, l1.length = l2.length →
      (∀ p ∈ l1.zip l2, areEquivalentNodes p.1 p.2 ig = areEquivalentNodes p.2 p.1 ig) →
      everyEquivalent l1 l2 ig = everyEquivalent l2 l1 ig
  | [], [], _, _ => rfl
  | [], _ :: _, h, _ => by simp at h
  | _ :: _, [], h, _ => by simp at h
  | x :: xs, y :: ys, h, hp => by
    rw [everyEquivalent, everyEquivalent]
    rw [hp (x, y) (by simp)]
    rw [everyEquivalent_swap_of ig xs ys (by simpa using h)
      (fun p hq => hp p (by simp [hq]))]

/-- The node-level comparison is symmetric in its two node arguments. -/
theorem areEquivalentNodes_swap (n m : Node) (ig : Bool) :
    areEquivalentNodes n m ig = areEquivalentNodes m n ig := by
  have H : ∀ (N : Nat) (n m : Node), sizeOf n ≤ N →
      areEquivalentNodes n m ig = areEquivalentNodes m n ig := by
    intro N
    induction N with
    | zero =>
      intro n m hn
      cases n with
      | mk k c t => simp [Node.mk.sizeOf_spec] at hn
    | succ N ih =>
      intro n m hn
      cases n with
      | mk k1 c1 t1 =>
        cases m with
        | mk k2 c2 t2 =>
          by_cases hk : k1 = k2
          · subst hk
            by_cases hlen : c1.length = c2.length
            · have hswap : everyEquivalent c1 c2 ig = everyEquivalent c2 c1 ig := by
                apply everyEquivalent_swap_of ig c1 c2 hlen
                intro p hp
                apply ih
                have hmem := List.of_mem_zip hp
                have h1 : sizeOf p.1 < sizeOf c1 := List.sizeOf_lt_of_mem hmem.1
                have h2 : sizeOf (Node.mk k1 c1 t1) = 1 + sizeOf k1 + sizeOf c1 + sizeOf t1 :=
                  Node.mk.sizeOf_spec k1 c1 t1
                omega
              rw [areEquivalentNodes_mk, areEquivalentNodes_mk]
              simp only [hlen, hswap, beq_swap t1 t2]
            · rw [areEquivalentNodes_mk, areEquivalentNodes_mk]
              rw [if_neg (show ¬(k1 ≠ k1) by simp), if_neg (show ¬(k1 ≠ k1) by simp)]
              rw [if_pos hlen, if_pos (fun h => hlen h.symm)]
          · rw [areEquivalentNodes_mk, areEquivalentNodes_mk]
            rw [if_pos hk, if_pos (fun h => hk h.symm)]
  exact H (sizeOf n) n m le_rfl

theorem everyEquivalent_eq_true_iff (ig : Bool) :
    ∀ l1 l2 : List Node, l1.length ≤ l2.length →
      (everyEquivalent l1 l2 ig = true ↔
        ∀ p ∈ l1.zip l2, areEquivalentNodes p.1 p.2 ig = true)
  | [], l2, _ => by simp [everyEquivalent]
  | x :: xs, [], h => by simp at h
  | x :: xs, y :: ys, h => by
    rw [everyEquivalent]
    rw [Bool.and_eq_true]
    rw [everyEquivalent_eq_true_iff ig xs ys (by simpa using h)]
    simp

/-! ### Claims about the tree-equivalence engine -/

/-- C1: For leaf nodes of the same compared-by-text kind with zero children:
if `ignoreLiterals` is true and the kind is a numeric or string literal,
`areEquivalent` returns true regardless of the raw text; for every other
compared-by-text kind (in particular identifiers) it returns true iff the raw
text is exactly equal, for either value of `ignoreLiterals`. -/
theorem C1_leaf_text_comparison (k : SyntaxKind) (t1 t2 : String) (ig : Bool)
    (hk : COMPARED_BY_TEXT k = true) :
    ((ig = true ∧ (k = SyntaxKind.numericLiteral ∨ k = SyntaxKind.stringLiteral)) →
      areEquivalent (.node (.mk k [] t1)) (.node (.mk k [] t2)) ig = true) ∧
    ((k ≠ SyntaxKind.numericLiteral ∧ k ≠ SyntaxKind.stringLiteral) →
      (areEquivalent (.node (.mk k [] t1)) (.node (.mk k [] t2)) ig = true ↔ t1 = t2)) := by
  constructor
  · rintro ⟨hig, hlit | hlit⟩ <;> subst hig <;> subst hlit <;> rfl
  · rintro ⟨hn, hs⟩
    have hlit : (ig && (k == SyntaxKind.stringLiteral || k == SyntaxKind.numericLiteral))
        = false := by
      cases k <;> simp_all
    show areEquivalentNodes (.mk k [] t1) (.mk k [] t2) ig = true ↔ t1 = t2
    rw [areEquivalentNodes_mk]
    rw [if_neg (show ¬(k ≠ k) by simp),
      if_neg (show ¬(List.length ([] : List Node) ≠ List.length ([] : List Node)) by simp)]
    rw [if_pos (show (List.length ([] : List Node) == 0 && COMPARED_BY_TEXT k) = true by
      simp [hk])]
    rw [if_neg (by simp [hlit])]
    exact beq_iff_eq

/-- Witness for C1: two numeric literals with different text are equivalent
under `ignoreLiterals`, two identifiers with different text are not. -/
theorem C1_leaf_text_comparison_witness :
    areEquivalent (.node (.mk .numericLiteral [] "1"))
      (.node (.mk .numericLiteral [] "2")) true = true ∧
    (areEquivalent (.node (.mk .identifier [] "x"))
      (.node (.mk .identifier [] "y")) true = true ↔ ("x" : String) = "y") :=
  ⟨(C1_leaf_text_comparison SyntaxKind.numericLiteral "1" "2" true (by decide)).1
      ⟨rfl, Or.inl rfl⟩,
    (C1_leaf_text_comparison SyntaxKind.identifier "x" "y" true (by decide)).2
      ⟨by decide, by decide⟩⟩

/-- C2: Two sequences are equivalent iff they have equal length and every
positional pair of elements is equivalent; a single node compared against a
sequence (in either order) is never equivalent. -/
theorem C2_sequence_and_mixed :
    (∀ (l1 l2 : List Node) (ig : Bool),
      areEquivalent (.array l1) (.array l2) ig = true ↔
        l1.length = l2.length ∧
          ∀ p ∈ l1.zip l2, areEquivalentNodes p.1 p.2 ig = true) ∧
    (∀ (n : Node) (l : List Node) (ig : Bool),
      areEquivalent (.node n) (.array l) ig = false ∧
      areEquivalent (.array l) (.node n) ig = false) := by
  constructor
  · intro l1 l2 ig
    show ((l1.length == l2.length) && everyEquivalent l1 l2 ig) = true ↔ _
    rw [Bool.and_eq_true]
    constructor
    · rintro ⟨h1, h2⟩
      have hlen : l1.length = l2.length := by simpa using h1
      exact ⟨hlen, (everyEquivalent_eq_true_iff ig l1 l2 (le_of_eq hlen)).1 h2⟩
    · rintro ⟨hlen, hp⟩
      exact ⟨by simp [hlen], (everyEquivalent_eq_true_iff ig l1 l2 (le_of_eq hlen)).2 hp⟩
  · intro n l ig
    exact ⟨rfl, rfl⟩

/-- Witness for C2 at concrete inputs: a pair of singleton sequences, and a
node compared against the empty sequence. -/
theorem C2_sequence_and_mixed_witness :
    (areEquivalent (.array [Node.mk .identifier [] "a"])
        (.array [Node.mk .identifier [] "b"]) false = true ↔
      [Node.mk .identifier [] "a"].length = [Node.mk .identifier [] "b"].length ∧
        ∀ p ∈ [Node.mk .identifier [] "a"].zip [Node.mk .identifier [] "b"],
          areEquivalentNodes p.1 p.2 false = true) ∧
    areEquivalent (.node (Node.mk .identifier [] "a")) (.array []) false = false :=
  ⟨C2_sequence_and_mixed.1 [Node.mk .identifier [] "a"] [Node.mk .identifier [] "b"] false,
    (C2_sequence_and_mixed.2 (Node.mk .identifier [] "a") [] false).1⟩

/-- C3: `areEquivalent` is reflexive: every tree (or sequence of trees) is
equivalent to itself for both values of `ignoreLiterals`. -/
theorem C3_reflexivity (t : NodeOrArray) (ig : Bool) : areEquivalent t t ig = true := by
  cases t with
  | node n => exact areEquivalentNodes_self n ig
  | array l =>
    show ((l.length == l.length) && everyEquivalent l l ig) = true
    rw [everyEquivalent_self_of ig l (fun x _ => areEquivalentNodes_self x ig)]
    simp

/-- C9: `areEquivalent` is symmetric in its two arguments, whether they are
single nodes, sequences, or a mix. -/
theorem C9_symmetry (a b : NodeOrArray) (ig : Bool) :
    areEquivalent a b ig = areEquivalent b a ig := by
  cases a with
  | node n =>
    cases b with
    | node m => exact areEquivalentNodes_swap n m ig
    | array l => rfl
  | array l =>
    cases b with
    | node m => rfl
    | array l2 =>
      show ((l.length == l2.length) && everyEquivalent l l2 ig) =
        ((l2.length == l.length) && everyEquivalent l2 l ig)
      by_cases hlen : l.length = l2.length
      · rw [beq_swap l.length l2.length,
          everyEquivalent_swap_of ig l l2 hlen
            (fun p _ => areEquivalentNodes_swap p.1 p.2 ig)]
      · have h1 : (l.length == l2.length) = false := by simp [hlen]
        have h2 : (l2.length == l.length) = false := by
          rw [beq_swap l2.length l.length]; simp [hlen]
        rw [h1, h2, Bool.false_and, Bool.false_and]

/-! ## The analysis server (`SonarTsServer`)

The server's mutable fields (`fileCache`, `tsConfigCache`,
`servicesPerTsconfig`) become an explicit `ServerState` threaded through the
handlers; JavaScript `Map`s become association lists with `Map.set` replace-
or-append semantics; the external collaborators (`fs.existsSync`,
`parseTsConfig`, `createService`, `getDiagnostics`, `getIssues`) are
parameters collected in `Env`.  Paths are absolute POSIX paths represented by
their list of components below the filesystem root, so `path.dirname` drops
the last component (and the root is its own parent) and `path.join dir name`
appends a component.  Issue, diagnostic, rule-configuration and
compiler-option payloads are opaque to the server and are represented by
`Nat`. -/

/-- An absolute path as its components below the root: `/a/b.ts` is
`["a", "b.ts"]`, the root `/` is `[]`. -/
abbrev FsPath := List String

/-- Embeds `path.dirname` for absolute paths. -/
def dirname (p : FsPath) : FsPath := p.dropLast

/-- A resolved configuration key: a real configuration file path, or the
`DEFAULT_TSCONFIG` sentinel exported by the server module. -/
inductive TsConfig where
  | path (p : FsPath)
  | defaultTsConfig
deriving DecidableEq, Repr

/-- An opaque source-file artifact handed out by a program. -/
structure SourceFile where
  id : Nat
deriving DecidableEq, Repr

/-- Embeds `ts.Program`, restricted to the one capability the server uses:
`program.getSourceFile(file)`. -/
structure Program where
  getSourceFile : FsPath → Option SourceFile

/-- Embeds `ts.LanguageService`, restricted to `service.getProgram()` (which
may yield no program). -/
structure LanguageService where
  getProgram : Option Program

/-- The `{ files, options }` record returned by `parseTsConfig`. -/
structure ParsedConfig where
  files : List FsPath
  options : Nat

/-- The server's external collaborators, as inputs of the embedding: the file
system and the language-service, diagnostics and rule layers. -/
structure Env where
  fsExists : FsPath → Bool
  parseTsConfig : TsConfig → FsPath → ParsedConfig
  createService : List FsPath → Nat → List (FsPath × String) → LanguageService
  getDiagnostics : SourceFile → Program → List Nat
  getIssues : List Nat → Program → SourceFile → List Nat

/-- Embeds `Map.prototype.get`: the value stored for `k`, if any. -/
def mapGet {κ ν : Type _} [DecidableEq κ] (m : List (κ × ν)) (k : κ) : Option ν :=
  match m with
  | [] => none
  | (k1, v1) :: rest => if k1 = k then some v1 else mapGet rest k

/-- Embeds `Map.prototype.set`: replace the value stored for `k` in place, or
append a new entry. -/
def mapSet {κ ν : Type _} [DecidableEq κ] (m : List (κ × ν)) (k : κ) (v : ν) :
    List (κ × ν) :=
  match m with
  | [] => [(k, v)]
  | (k1, v1) :: rest => if k1 = k then (k, v) :: rest else (k1, v1) :: mapSet rest k v

/-- The three mutable fields of `SonarTsServer`:
`fileCache` (file path to latest content), `tsConfigCache` (ts file path to
its resolved tsconfig) and `servicesPerTsconfig` (tsconfig to its language
service). -/
structure ServerState where
  fileCache : List (FsPath × String)
  tsConfigCache : List (FsPath × TsConfig)
  servicesPerTsconfig : List (TsConfig × LanguageService)

/-- The state of a freshly constructed server: all three caches empty. -/
def initialState : ServerState := ⟨[], [], []⟩

/-- The wire-level request: `{ file, rules, content, projectRoot,
tsconfigPath }`. -/
structure AnalysisRequest where
  file : FsPath
  rules : List Nat
  content : String
  projectRoot : FsPath
  tsconfigPath : Option FsPath

/-- A response carries either an issue list or a diagnostic list. -/
inductive AnalysisResponse where
  | issues (issues : List Nat)
  | diagnostics (diagnostics : List Nat)
deriving DecidableEq, Repr

/-- The server's `EMPTY_ANSWER` constant: `{ issues: [] }`. -/
def EMPTY_ANSWER : AnalysisResponse := .issues []

/-- Instrumentation attached to `handleAnalysisRequest`: how many times
`createNewService` ran during the request, and whether rule evaluation
(`getIssues`) ran.  It observes the computation and influences nothing. -/
structure RequestStats where
  rebuilds : Nat
  rulesRan : Bool
deriving DecidableEq, Repr

/-- Embeds the `do`/`while` ancestor-directory walk of
`SonarTsServer.getTsConfig`: step to `path.dirname(currentDirectory)`, return
`currentDirectory/tsconfig.json` if it exists, and repeat while the current
directory differs from its own parent.  The recursion is driven by an
explicit bound which the loop never exhausts, since every iteration shortens
the path by one component (`tsconfigWalkFuel_irrelevant`); `none` means the
walk reached the root without a match. -/
def tsconfigWalkFuel (env : Env) : Nat → FsPath → Option FsPath
  | 0, _ => none
  | fuel + 1, currentDirectory =>
    if env.fsExists (dirname currentDirectory ++ ["tsconfig.json"]) then
      some (dirname currentDirectory ++ ["tsconfig.json"])
    else if dirname currentDirectory = dirname (dirname currentDirectory) then none
    else tsconfigWalkFuel env fuel (dirname currentDirectory)

/-- The ancestor-directory walk, started from the request's file path as in
the source (`currentDirectory = filePath` before the first `dirname`). -/
def tsconfigWalk (env : Env) (filePath : FsPath) : Option FsPath :=
  tsconfigWalkFuel env (filePath.length + 1) filePath

/-- The directories the walk inspects, in the order it inspects them (the
file's parent first, the root last), under the same bounded recursion as
`tsconfigWalkFuel`. -/
def visitedDirsFuel : Nat → FsPath → List FsPath
  | 0, _ => []
  | fuel + 1, currentDirectory =>
    if dirname currentDirectory = dirname (dirname currentDirectory) then
      [dirname currentDirectory]
    else dirname currentDirectory :: visitedDirsFuel fuel (dirname currentDirectory)

/-- The directories inspected by the walk started from `filePath`. -/
def visitedDirs (filePath : FsPath) : List FsPath :=
  visitedDirsFuel (filePath.length + 1) filePath

/-- Embeds `SonarTsServer.getTsConfig(filePath, tsconfigPath?)`: with an
explicit `tsconfigPath`, succeed with exactly that path iff it exists on
disk, never falling back to the directory walk; without one, walk the
ancestor directories and fall back to the `DEFAULT_TSCONFIG` sentinel when
nothing is found. -/
def getTsConfig (env : Env) (filePath : FsPath) (tsconfigPath : Option FsPath) :
    Option TsConfig :=
  match tsconfigPath with
  | some p => if env.fsExists p then some (.path p) else none
  | none =>
    match tsconfigWalk env filePath with
    | some possibleTsConfig => some (.path possibleTsConfig)
    | none => some .defaultTsConfig

/-- Embeds `SonarTsServer.retrieveTsConfig`: consult the per-file cache
first; on a miss run `getTsConfig` and store only a successful resolution
(a failed resolution is logged and the cache is left untouched). -/
def retrieveTsConfig (env : Env) (st : ServerState) (file : FsPath)
    (tsconfigPath : Option FsPath) : Option TsConfig × ServerState :=
  match mapGet st.tsConfigCache file with
  | some _ => (mapGet st.tsConfigCache file, st)
  | none =>
    match getTsConfig env file tsconfigPath with
    | none => (none, st)
    | some tsConfig =>
      let st1 : ServerState :=
        { st with tsConfigCache := mapSet st.tsConfigCache file tsConfig }
      (mapGet st1.tsConfigCache file, st1)

/-- Embeds `SonarTsServer.createNewService`: parse the configuration, build a
service over the current file cache, and register it under the configuration
path (replacing any previous service for that path). -/
def createNewService (env : Env) (st : ServerState) (tsConfig : TsConfig)
    (projectRoot : FsPath) : LanguageService × ServerState :=
  let parsed := env.parseTsConfig tsConfig projectRoot
  let service := env.createService parsed.files parsed.options st.fileCache
  (service,
    { st with servicesPerTsconfig := mapSet st.servicesPerTsconfig tsConfig service })

/-- The fast path of `SonarTsServer.retrieveProgramAndSourceFile`: a
registered service whose program contains the file. -/
def fastLookup (st : ServerState) (file : FsPath) (tsConfig : TsConfig) :
    Option (Program × SourceFile) :=
  match mapGet st.servicesPerTsconfig tsConfig with
  | some registeredService =>
    match registeredService.getProgram with
    | some program =>
      match program.getSourceFile file with
      | some sourceFile => some (program, sourceFile)
      | none => none
    | none => none
  | none => none

/-- Embeds `SonarTsServer.retrieveProgramAndSourceFile`: return the file from
the registered service when possible; otherwise (no registered service, or no
file in it) build and register a new service and re-query.  The `Nat` counts
`createNewService` calls (0 or 1), as instrumentation. -/
def retrieveProgramAndSourceFile (env : Env) (st : ServerState) (file : FsPath)
    (tsConfig : TsConfig) (projectRoot : FsPath) :
    Option (Program × SourceFile) × ServerState × Nat :=
  match fastLookup st file tsConfig with
  | some found => (some found, st, 0)
  | none =>
    let built := createNewService env st tsConfig projectRoot
    match built.1.getProgram with
    | none => (none, built.2, 1)
    | some program =>
      match program.getSourceFile file with
      | none => (none, built.2, 1)
      | some sourceFile => (some (program, sourceFile), built.2, 1)

/-- Embeds `this.fileCache.newContent({ file, content })`. -/
def newContent (st : ServerState) (file : FsPath) (content : String) : ServerState :=
  { st with fileCache := mapSet st.fileCache file content }

/-- Embeds `SonarTsServer.handleAnalysisRequest`: update the file cache,
resolve the configuration (empty answer on failure), obtain program and
source file (empty answer on failure), answer with diagnostics alone when the
file has any, and only otherwise run the rules. -/
def handleAnalysisRequest (env : Env) (st : ServerState) (request : AnalysisRequest) :
    AnalysisResponse × ServerState × RequestStats :=
  let st0 := newContent st request.file request.content
  match retrieveTsConfig env st0 request.file request.tsconfigPath with
  | (none, st1) => (EMPTY_ANSWER, st1, ⟨0, false⟩)
  | (some tsConfig, st1) =>
    match retrieveProgramAndSourceFile env st1 request.file tsConfig
        request.projectRoot with
    | (none, st2, n) => (EMPTY_ANSWER, st2, ⟨n, false⟩)
    | (some (program, sourceFile), st2, n) =>
      let diagnostics := env.getDiagnostics sourceFile program
      if diagnostics.length > 0 then (.diagnostics diagnostics, st2, ⟨n, false⟩)
      else (.issues (env.getIssues request.rules program sourceFile), st2, ⟨n, true⟩)

/-- Embeds one `data` event of the connection handler in
`SonarTsServer.start`: append the chunk to the accumulation buffer; if the
whole buffer parses as a request, clear the buffer, handle the request and
write back exactly one response; on a parse failure keep the buffer and wait
for more data (the `catch` ignores the parse error). -/
def onData (parse : String → Option AnalysisRequest) (env : Env) (st : ServerState)
    (buffer data : String) : String × ServerState × List AnalysisResponse :=
  let accumulatedData := buffer ++ data
  match parse accumulatedData with
  | some request =>
    ("", (handleAnalysisRequest env st request).2.1,
      [(handleAnalysisRequest env st request).1])
  | none => (accumulatedData, st, [])

/-- Folds `onData` over the chunks received on the connection, collecting the
responses written back, in order. -/
def processChunks (parse : String → Option AnalysisRequest) (env : Env) :
    List String → ServerState → String → String × ServerState × List AnalysisResponse
  | [], st, buffer => (buffer, st, [])
  | data :: rest, st, buffer =>
    let step := onData parse env st buffer data
    let tail := processChunks parse env rest step.2.1 step.1
    (tail.1, tail.2.1, step.2.2 ++ tail.2.2)

/-! ### Lemmas about the map model and the directory walk -/

theorem mapGet_mapSet_self {κ ν : Type _} [DecidableEq κ] (m : List (κ × ν)) (k : κ)
    (v : ν) : mapGet (mapSet m k v) k = some v := by
  induction m with
  | nil => simp [mapGet, mapSet]
  | cons e rest ih =>
    obtain ⟨k1, v1⟩ := e
    by_cases h : k1 = k
    · simp [mapGet, mapSet, h]
    · simp [mapGet, mapSet, h, ih]

theorem mem_map_fst_mapSet {κ ν : Type _} [DecidableEq κ] (m : List (κ × ν)) (k a : κ)
    (v : ν) : a ∈ (mapSet m k v).map Prod.fst ↔ a ∈ m.map Prod.fst ∨ a = k := by
  induction m with
  | nil => simp [mapSet]
  | cons e rest ih =>
    obtain ⟨k1, v1⟩ := e
    by_cases h : k1 = k
    · subst h
      simp [mapSet]
      tauto
    · simp [mapSet, h, ih]
      tauto

/-- Replacing or inserting one entry keeps the keys of the map free of
duplicates. -/
theorem mapSet_keys_nodup {κ ν : Type _} [DecidableEq κ] (m : List (κ × ν)) (k : κ)
    (v : ν) (h : (m.map Prod.fst).Nodup) : ((mapSet m k v).map Prod.fst).Nodup := by
  induction m with
  | nil => simp [mapSet]
  | cons e rest ih =>
    obtain ⟨k1, v1⟩ := e
    simp only [List.map_cons, List.nodup_cons] at h
    by_cases hk : k1 = k
    · subst hk
      simpa [mapSet, List.nodup_cons] using h
    · simp only [mapSet, if_neg hk, List.map_cons, List.nodup_cons]
      refine ⟨?_, ih h.2⟩
      rw [mem_map_fst_mapSet]
      rintro (hmem | hmem)
      · exact h.1 hmem
      · exact hk hmem

/-- The bound driving the walk is irrelevant as long as it exceeds the path
length: the loop always terminates by reaching the root first. -/
theorem tsconfigWalkFuel_irrelevant (env : Env) :
    ∀ (fuel : Nat) (p : FsPath), p.length + 1 ≤ fuel →
      tsconfigWalkFuel env fuel p = tsconfigWalk env p := by
  intro fuel
  induction fuel with
  | zero => intro p h; exact absurd h (by omega)
  | succ fuel ih =>
    intro p h
    show tsconfigWalkFuel env (fuel + 1) p = tsconfigWalkFuel env (p.length + 1) p
    by_cases h1 : env.fsExists (dirname p ++ ["tsconfig.json"]) = true
    · rw [tsconfigWalkFuel, tsconfigWalkFuel, if_pos h1, if_pos h1]
    · by_cases h2 : dirname p = dirname (dirname p)
      · rw [tsconfigWalkFuel, tsconfigWalkFuel, if_neg h1, if_neg h1, if_pos h2, if_pos h2]
      · have hp : p ≠ [] := by
          intro he
          subst he
          exact h2 rfl
        have hpos : 0 < p.length := List.length_pos.mpr hp
        have hlen : (dirname p).length + 1 = p.length := by
          simp [dirname, List.length_dropLast]
          omega
        rw [tsconfigWalkFuel, tsconfigWalkFuel, if_neg h1, if_neg h1, if_neg h2, if_neg h2]
        rw [ih (dirname p) (by omega)]
        rw [show p.length = (dirname p).length + 1 from hlen.symm]
        rfl

/-- The walk returns the configuration file of the first inspected directory
that has one. -/
theorem tsconfigWalkFuel_eq_find (env : Env) :
    ∀ (fuel : Nat) (p : FsPath),
      tsconfigWalkFuel env fuel p =
        ((visitedDirsFuel fuel p).find?
            (fun d => env.fsExists (d ++ ["tsconfig.json"]))).map
          (fun d => d ++ ["tsconfig.json"]) := by
  intro fuel
  induction fuel with
  | zero => intro p; rfl
  | succ fuel ih =>
    intro p
    rw [tsconfigWalkFuel, visitedDirsFuel]
    by_cases h1 : env.fsExists (dirname p ++ ["tsconfig.json"]) = true
    · rw [if_pos h1]
      by_cases h2 : dirname p = dirname (dirname p)
      · rw [if_pos h2]
        simp [List.find?_cons, h1]
      · rw [if_neg h2]
        simp [List.find?_cons, h1]
    · rw [if_neg h1]
      by_cases h2 : dirname p = dirname (dirname p)
      · rw [if_pos h2, if_pos h2]
        simp only [List.find?_cons]
        rw [show env.fsExists (dirname p ++ ["tsconfig.json"]) = false from by
          simpa using h1]
        rfl
      · rw [if_neg h2, if_neg h2]
        simp only [List.find?_cons]
        rw [show env.fsExists (dirname p ++ ["tsconfig.json"]) = false from by
          simpa using h1]
        exact ih (dirname p)

/-- The walk inspects exactly the ancestors of the file path, from its parent
directory down to the filesystem root, in that order. -/
theorem visitedDirsFuel_eq_ancestors :
    ∀ (n : Nat) (p : FsPath), p.length ≤ n →
      visitedDirsFuel (n + 1) p =
        (if p = [] then [([] : FsPath)]
         else (List.range p.length).reverse.map (fun k => p.take k)) := by
  intro n
  induction n with
  | zero =>
    intro p h
    have hp : p = [] := List.length_eq_zero.mp (by omega)
    subst hp
    rfl
  | succ n ih =>
    intro p h
    by_cases hp : p = []
    · subst hp
      rfl
    · rw [if_neg hp]
      have hpos : 0 < p.length := List.length_pos.mpr hp
      by_cases h1 : p.length = 1
      · have hd : dirname p = [] := by
          have : p.dropLast.length = 0 := by simp [List.length_dropLast, h1]
          simpa [dirname] using List.length_eq_zero.mp this
        rw [visitedDirsFuel, if_pos (show dirname p = dirname (dirname p) by rw [hd]; rfl)]
        rw [h1, hd]
        simp [show List.range 1 = [0] from rfl]
      · have hd : dirname p ≠ [] := by
          intro he
          have := congrArg List.length he
          simp [dirname, List.length_dropLast] at this
          omega
        have hcond : dirname p ≠ dirname (dirname p) := by
          intro he
          have := congrArg List.length he
          have hdpos : 0 < (dirname p).length := List.length_pos.mpr hd
          simp [dirname, List.length_dropLast] at this
          omega
        rw [visitedDirsFuel, if_neg hcond]
        have hdl : (dirname p).length = p.length - 1 := by
          simp [dirname, List.length_dropLast]
        rw [ih (dirname p) (by omega), if_neg hd]
        have hrange : List.range p.length =
            List.range (p.length - 1) ++ [p.length - 1] := by
          conv_lhs => rw [show p.length = (p.length - 1) + 1 from by omega]
          rw [List.range_succ]
        rw [hrange, hdl]
        rw [List.reverse_append]
        simp only [List.reverse_cons, List.reverse_nil, List.nil_append,
          List.singleton_append, List.map_cons]
        have htake : p.take (p.length - 1) = dirname p := (List.dropLast_eq_take p).symm
        rw [htake]
        have hmaps : (List.range (p.length - 1)).reverse.map (fun k => (dirname p).take k) =
            (List.range (p.length - 1)).reverse.map (fun k => p.take k) := by
          apply List.map_congr_left
          intro a ha
          have halt : a < p.length - 1 := by
            have : a ∈ List.range (p.length - 1) := by simpa using ha
            simpa using List.mem_range.mp this
          rw [show dirname p = p.take (p.length - 1) from List.dropLast_eq_take p]
          rw [List.take_take]
          congr 1
          omega
        rw [hmaps]

/-! ### Shape lemmas for `retrieveProgramAndSourceFile` -/

theorem createNewService_services (env : Env) (st : ServerState) (cfg : TsConfig)
    (root : FsPath) :
    (createNewService env st cfg root).2.servicesPerTsconfig =
      mapSet st.servicesPerTsconfig cfg (createNewService env st cfg root).1 := rfl

theorem retrieve_of_fast (env : Env) (st : ServerState) (file : FsPath) (cfg : TsConfig)
    (root : FsPath) (found : Program × SourceFile)
    (h : fastLookup st file cfg = some found) :
    retrieveProgramAndSourceFile env st file cfg root = (some found, st, 0) := by
  simp [retrieveProgramAndSourceFile, h]

theorem retrieve_of_rebuild (env : Env) (st : ServerState) (file : FsPath)
    (cfg : TsConfig) (root : FsPath) (h : fastLookup st file cfg = none) :
    (retrieveProgramAndSourceFile env st file cfg root).2.1 =
      (createNewService env st cfg root).2 ∧
    (retrieveProgramAndSourceFile env st file cfg root).2.2 = 1 := by
  simp only [retrieveProgramAndSourceFile, h]
  cases hprog : (createNewService env st cfg root).1.getProgram with
  | none => simp
  | some program =>
    cases hsf : program.getSourceFile file with
    | none => simp [hsf]
    | some sourceFile => simp [hsf]

theorem retrieve_rebuild_found (env : Env) (st : ServerState) (file : FsPath)
    (cfg : TsConfig) (root : FsPath) (program : Program) (sourceFile : SourceFile)
    (h : fastLookup st file cfg = none)
    (hp : (createNewService env st cfg root).1.getProgram = some program)
    (hs : program.getSourceFile file = some sourceFile) :
    retrieveProgramAndSourceFile env st file cfg root =
      (some (program, sourceFile), (createNewService env st cfg root).2, 1) := by
  simp [retrieveProgramAndSourceFile, h, hp, hs]

/-! ### Concrete sample data used by witnesses and counterexamples -/

/-- A program containing every file, handing out source file `0`. -/
def sampleProgram : Program := ⟨fun _ => some ⟨0⟩⟩

/-- A language service whose program is `sampleProgram`. -/
def sampleService : LanguageService := ⟨some sampleProgram⟩

/-- A language service with no program at all. -/
def emptyService : LanguageService := ⟨none⟩

/-- A concrete environment: the only file on disk is `/tsconfig.json`, every
built service is `sampleService`, files have no diagnostics, and rule
evaluation reports the single issue `7`. -/
def sampleEnv : Env where
  fsExists := fun p => decide (p = ["tsconfig.json"])
  parseTsConfig := fun _ _ => ⟨[], 0⟩
  createService := fun _ _ _ => sampleService
  getDiagnostics := fun _ _ => []
  getIssues := fun _ _ _ => [7]

/-- Like `sampleEnv`, but every file carries the diagnostic `5`. -/
def diagEnv : Env := { sampleEnv with getDiagnostics := fun _ _ => [5] }

/-- A request for `/a.ts` naming the existing `/tsconfig.json` explicitly. -/
def sampleReqExplicit : AnalysisRequest := ⟨["a.ts"], [], "x", [], some ["tsconfig.json"]⟩

/-- A request for `/a.ts` naming a configuration path absent from disk. -/
def sampleReqMissing : AnalysisRequest := ⟨["a.ts"], [], "x", [], some ["missing.json"]⟩

/-- A state whose service cache maps `/tsconfig.json` to `sampleService`. -/
def sampleState : ServerState :=
  ⟨[], [], [(TsConfig.path ["tsconfig.json"], sampleService)]⟩

/-- A state whose service cache maps `/tsconfig.json` to the program-less
`emptyService`, so any lookup must rebuild. -/
def lackState : ServerState :=
  ⟨[], [], [(TsConfig.path ["tsconfig.json"], emptyService)]⟩

/-- A parser that recognises exactly the byte string "req". -/
def sampleParse : String → Option AnalysisRequest := fun s =>
  if s = "req" then some sampleReqExplicit else none

/-! ### Claims about the server -/

/-- C5: Without an explicit configuration path, resolution inspects exactly
the ancestor directories of the file, from its parent down to the filesystem
root (the directory equal to its own parent), returns the configuration file
of the first directory containing one, and resolves to the
default-configuration sentinel rather than failing when none is found. -/
theorem C5_ancestor_walk (env : Env) (filePath : FsPath) :
    getTsConfig env filePath none ≠ none ∧
    visitedDirs filePath =
      (if filePath = [] then [([] : FsPath)]
       else (List.range filePath.length).reverse.map (fun k => filePath.take k)) ∧
    (∀ d, (visitedDirs filePath).find?
        (fun dir => env.fsExists (dir ++ ["tsconfig.json"])) = some d →
      getTsConfig env filePath none = some (.path (d ++ ["tsconfig.json"]))) ∧
    ((visitedDirs filePath).find?
        (fun dir => env.fsExists (dir ++ ["tsconfig.json"])) = none →
      getTsConfig env filePath none = some .defaultTsConfig) := by
  have hwalk : tsconfigWalk env filePath =
      ((visitedDirs filePath).find?
          (fun dir => env.fsExists (dir ++ ["tsconfig.json"]))).map
        (fun dir => dir ++ ["tsconfig.json"]) :=
    tsconfigWalkFuel_eq_find env (filePath.length + 1) filePath
  refine ⟨?_, visitedDirsFuel_eq_ancestors filePath.length filePath le_rfl, ?_, ?_⟩
  · cases htw : tsconfigWalk env filePath <;> simp [getTsConfig, htw]
  · intro d hd
    simp [getTsConfig, hwalk, hd]
  · intro hd
    simp [getTsConfig, hwalk, hd]

/-- Witness for C5: from `/src/a.ts` with only `/tsconfig.json` on disk, the
walk skips `/src` and finds the configuration at the root. -/
theorem C5_ancestor_walk_witness :
    getTsConfig sampleEnv ["src", "a.ts"] none =
      some (.path ["tsconfig.json"]) :=
  (C5_ancestor_walk sampleEnv ["src", "a.ts"]).2.2.1 [] (by decide)

/-- C8: A buffer that parses as a complete request produces exactly one
response and clears the buffer; a buffer that does not yet parse is kept
intact with no response emitted; and the responses on a connection are the
concatenation, in arrival order, of the responses of its chunks. -/
theorem C8_framing (parse : String → Option AnalysisRequest) (env : Env) :
    (∀ (st : ServerState) (buffer data : String) (request : AnalysisRequest),
      parse (buffer ++ data) = some request →
      onData parse env st buffer data =
        ("", (handleAnalysisRequest env st request).2.1,
          [(handleAnalysisRequest env st request).1])) ∧
    (∀ (st : ServerState) (buffer data : String),
      parse (buffer ++ data) = none →
      onData parse env st buffer data = (buffer ++ data, st, [])) ∧
    (∀ (chunks1 chunks2 : List String) (st : ServerState) (buffer : String),
      (processChunks parse env (chunks1 ++ chunks2) st buffer).2.2 =
        (processChunks parse env chunks1 st buffer).2.2 ++
          (processChunks parse env chunks2
            (processChunks parse env chunks1 st buffer).2.1
            (processChunks parse env chunks1 st buffer).1).2.2) := by
  refine ⟨?_, ?_, ?_⟩
  · intro st buffer data request h
    simp [onData, h]
  · intro st buffer data h
    simp [onData, h]
  · intro chunks1
    induction chunks1 with
    | nil =>
      intro chunks2 st buffer
      simp [processChunks]
    | cons c cs ih =>
      intro chunks2 st buffer
      simp only [List.cons_append, processChunks, List.append_eq]
      rw [ih]
      simp [List.append_assoc]

/-- Witness for C8: the request "req" split into the chunks "re" and "q". -/
theorem C8_framing_witness :
    onData sampleParse sampleEnv initialState "re" "q" =
      ("", (handleAnalysisRequest sampleEnv initialState sampleReqExplicit).2.1,
        [(handleAnalysisRequest sampleEnv initialState sampleReqExplicit).1]) ∧
    onData sampleParse sampleEnv initialState "" "re" = ("" ++ "re", initialState, []) ∧
    (processChunks sampleParse sampleEnv (["re"] ++ ["q"]) initialState "").2.2 =
      (processChunks sampleParse sampleEnv ["re"] initialState "").2.2 ++
        (processChunks sampleParse sampleEnv ["q"]
          (processChunks sampleParse sampleEnv ["re"] initialState "").2.1
          (processChunks sampleParse sampleEnv ["re"] initialState "").1).2.2 :=
  ⟨(C8_framing sampleParse sampleEnv).1 initialState "re" "q" sampleReqExplicit (by rfl),
    (C8_framing sampleParse sampleEnv).2.1 initialState "" "re" (by rfl),
    (C8_framing sampleParse sampleEnv).2.2 ["re"] ["q"] initialState ""⟩

/-- C10: A failed configuration resolution is never cached: a failed
`retrieveTsConfig` leaves the whole state unchanged; the per-file cache
either stays as it was or gains exactly the successful resolution; and while
the file is uncached, every call re-runs `getTsConfig` (so a later call — in
an environment where the file has appeared, or with a different explicit
path — resolves afresh instead of replaying the failure). -/
theorem C10_no_caching_of_failure (env : Env) (st : ServerState) (file : FsPath)
    (tsconfigPath : Option FsPath) :
    ((retrieveTsConfig env st file tsconfigPath).1 = none →
      (retrieveTsConfig env st file tsconfigPath).2 = st) ∧
    ((retrieveTsConfig env st file tsconfigPath).2.tsConfigCache = st.tsConfigCache ∨
      ∃ c, getTsConfig env file tsconfigPath = some c ∧
        (retrieveTsConfig env st file tsconfigPath).2.tsConfigCache =
          mapSet st.tsConfigCache file c) ∧
    (mapGet st.tsConfigCache file = none →
      (retrieveTsConfig env st file tsconfigPath).1 =
        getTsConfig env file tsconfigPath) := by
  cases hcache : mapGet st.tsConfigCache file with
  | some c0 =>
    refine ⟨?_, Or.inl ?_, ?_⟩
    · intro h
      simp [retrieveTsConfig, hcache] at h
    · simp [retrieveTsConfig, hcache]
    · intro h
      simp [hcache] at h
  | none =>
    cases hget : getTsConfig env file tsconfigPath with
    | none =>
      refine ⟨?_, Or.inl ?_, ?_⟩
      · intro _
        simp [retrieveTsConfig, hcache, hget]
      · simp [retrieveTsConfig, hcache, hget]
      · intro _
        simp [retrieveTsConfig, hcache, hget]
    | some c =>
      refine ⟨?_, Or.inr ⟨c, rfl, ?_⟩, ?_⟩
      · intro h
        simp [retrieveTsConfig, hcache, hget, mapGet_mapSet_self] at h
      · simp [retrieveTsConfig, hcache, hget]
      · intro _
        simp [retrieveTsConfig, hcache, hget, mapGet_mapSet_self]

/-- Witness for C10: resolving `/a.ts` against the nonexistent explicit path
`/missing.json` fails, leaves the fresh state unchanged, and re-runs
resolution. -/
theorem C10_no_caching_of_failure_witness :
    (retrieveTsConfig sampleEnv initialState ["a.ts"] (some ["missing.json"])).2 =
      initialState ∧
    (retrieveTsConfig sampleEnv initialState ["a.ts"] (some ["missing.json"])).1 =
      getTsConfig sampleEnv ["a.ts"] (some ["missing.json"]) :=
  ⟨(C10_no_caching_of_failure sampleEnv initialState ["a.ts"]
      (some ["missing.json"])).1 (by decide),
    (C10_no_caching_of_failure sampleEnv initialState ["a.ts"]
      (some ["missing.json"])).2.2 (by rfl)⟩

/-- C6: At most one language service is registered per configuration path
(the service map's keys stay duplicate-free); a registered service whose
program contains the file is returned with no rebuild and no state change; a
registered service lacking the file causes exactly one rebuild whose result
replaces the previous service under that configuration path; and repeating a
successful retrieval performs no further rebuild. -/
theorem C6_service_cache (env : Env) (st : ServerState) (file : FsPath)
    (cfg : TsConfig) (root : FsPath) :
    ((st.servicesPerTsconfig.map Prod.fst).Nodup →
      (((retrieveProgramAndSourceFile env st file cfg root).2.1.servicesPerTsconfig).map
          Prod.fst).Nodup) ∧
    (∀ svc program sourceFile,
      mapGet st.servicesPerTsconfig cfg = some svc →
      svc.getProgram = some program →
      program.getSourceFile file = some sourceFile →
      retrieveProgramAndSourceFile env st file cfg root =
        (some (program, sourceFile), st, 0)) ∧
    (∀ svc, mapGet st.servicesPerTsconfig cfg = some svc →
      (svc.getProgram = none ∨
        ∃ program, svc.getProgram = some program ∧
          program.getSourceFile file = none) →
      (retrieveProgramAndSourceFile env st file cfg root).2.2 = 1 ∧
      mapGet ((retrieveProgramAndSourceFile env st file cfg root).2.1.servicesPerTsconfig)
          cfg = some (createNewService env st cfg root).1) ∧
    (∀ found st1 n,
      retrieveProgramAndSourceFile env st file cfg root = (some found, st1, n) →
      retrieveProgramAndSourceFile env st1 file cfg root = (some found, st1, 0)) := by
  refine ⟨?_, ?_, ?_, ?_⟩
  · intro h
    cases hfast : fastLookup st file cfg with
    | some found => rw [retrieve_of_fast env st file cfg root found hfast]; exact h
    | none =>
      rw [(retrieve_of_rebuild env st file cfg root hfast).1, createNewService_services]
      exact mapSet_keys_nodup _ _ _ h
  · intro svc program sourceFile hsvc hprog hsf
    exact retrieve_of_fast env st file cfg root (program, sourceFile)
      (by simp [fastLookup, hsvc, hprog, hsf])
  · intro svc hsvc hlack
    have hfast : fastLookup st file cfg = none := by
      rcases hlack with hnone | ⟨program, hprog, hsf⟩
      · simp [fastLookup, hsvc, hnone]
      · simp [fastLookup, hsvc, hprog, hsf]
    refine ⟨(retrieve_of_rebuild env st file cfg root hfast).2, ?_⟩
    rw [(retrieve_of_rebuild env st file cfg root hfast).1, createNewService_services]
    exact mapGet_mapSet_self _ _ _
  · intro found st1 n h
    cases hfast : fastLookup st file cfg with
    | some found0 =>
      rw [retrieve_of_fast env st file cfg root found0 hfast] at h
      simp only [Prod.mk.injEq] at h
      obtain ⟨hf, hst, hn⟩ := h
      injection hf with hf
      subst hf
      subst hst
      exact retrieve_of_fast env st file cfg root found0 hfast
    | none =>
      simp only [retrieveProgramAndSourceFile, hfast] at h
      cases hprog : (createNewService env st cfg root).1.getProgram with
      | none => simp [hprog] at h
      | some program =>
        cases hsf : program.getSourceFile file with
        | none => simp [hprog, hsf] at h
        | some sourceFile =>
          simp only [hprog, hsf, Prod.mk.injEq] at h
          obtain ⟨hf, hst, hn⟩ := h
          injection hf with hf
          subst hf
          subst hst
          apply retrieve_of_fast
          simp [fastLookup, createNewService_services, mapGet_mapSet_self, hprog, hsf]

/-- Witness for C6: with `sampleService` registered the file is served with
no rebuild and no state change; with the program-less `emptyService`
registered, exactly one rebuild occurs. -/
theorem C6_service_cache_witness :
    retrieveProgramAndSourceFile sampleEnv sampleState ["a.ts"]
        (.path ["tsconfig.json"]) [] =
      (some (sampleProgram, ⟨0⟩), sampleState, 0) ∧
    (retrieveProgramAndSourceFile sampleEnv lackState ["a.ts"]
        (.path ["tsconfig.json"]) []).2.2 = 1 :=
  ⟨(C6_service_cache sampleEnv sampleState ["a.ts"] (.path ["tsconfig.json"]) []).2.1
      sampleService sampleProgram ⟨0⟩ rfl rfl rfl,
    ((C6_service_cache sampleEnv lackState ["a.ts"] (.path ["tsconfig.json"]) []).2.2.1
      emptyService rfl (Or.inl rfl)).1⟩

/-- C7: When the target file has pre-analysis diagnostics, the response is
exactly the diagnostics payload, rule evaluation does not run; and no
response ever carries both a diagnostics and an issues payload. -/
theorem C7_diagnostics_short_circuit (env : Env) (st : ServerState)
    (request : AnalysisRequest) :
    (∀ cfg st1 program sourceFile st2 n,
      retrieveTsConfig env (newContent st request.file request.content) request.file
          request.tsconfigPath = (some cfg, st1) →
      retrieveProgramAndSourceFile env st1 request.file cfg request.projectRoot =
        (some (program, sourceFile), st2, n) →
      env.getDiagnostics sourceFile program ≠ [] →
      handleAnalysisRequest env st request =
        (.diagnostics (env.getDiagnostics sourceFile program), st2, ⟨n, false⟩)) ∧
    (∀ ds, (handleAnalysisRequest env st request).1 = .diagnostics ds →
      ¬∃ issuesList, (handleAnalysisRequest env st request).1 = .issues issuesList) := by
  constructor
  · intro cfg st1 program sourceFile st2 n h1 h2 h3
    have hlen : 0 < (env.getDiagnostics sourceFile program).length :=
      List.length_pos.mpr h3
    simp only [handleAnalysisRequest, h1, h2]
    rw [if_pos hlen]
  · rintro ds hd ⟨issuesList, hi⟩
    rw [hd] at hi
    exact absurd hi (by simp)

/-- Witness for C7: under `diagEnv` every file carries the diagnostic `5`,
and the request is answered with a diagnostics-only payload after one
rebuild, with no rule evaluation. -/
theorem C7_diagnostics_short_circuit_witness :
    handleAnalysisRequest diagEnv initialState sampleReqExplicit =
      (.diagnostics [5],
        ⟨[(["a.ts"], "x")], [(["a.ts"], TsConfig.path ["tsconfig.json"])],
          [(TsConfig.path ["tsconfig.json"], sampleService)]⟩,
        ⟨1, false⟩) ∧
    ¬∃ issuesList,
      (handleAnalysisRequest diagEnv initialState sampleReqExplicit).1 =
        .issues issuesList :=
  ⟨(C7_diagnostics_short_circuit diagEnv initialState sampleReqExplicit).1
      (.path ["tsconfig.json"])
      ⟨[(["a.ts"], "x")], [(["a.ts"], TsConfig.path ["tsconfig.json"])], []⟩
      sampleProgram ⟨0⟩
      ⟨[(["a.ts"], "x")], [(["a.ts"], TsConfig.path ["tsconfig.json"])],
        [(TsConfig.path ["tsconfig.json"], sampleService)]⟩
      1 rfl rfl (by decide),
    (C7_diagnostics_short_circuit diagEnv initialState sampleReqExplicit).2 [5] (by rfl)⟩

/-- C4 (amended): For a request carrying an explicit configuration path,
provided the per-file cache holds no configuration for the file yet,
resolution succeeds with exactly that path iff the path exists on disk; when
it does not exist, resolution reports NotFound without falling back to the
ancestor-directory search, and the request is answered with an empty result.
(On a cache hit the cached configuration is used and the explicit path is
never consulted — see the counterexample to the unqualified claim.) -/
theorem C4_explicit_path (env : Env) (st : ServerState) (request : AnalysisRequest)
    (p : FsPath) (hp : request.tsconfigPath = some p)
    (hmiss : mapGet st.tsConfigCache request.file = none) :
    (getTsConfig env request.file request.tsconfigPath = some (.path p) ↔
      env.fsExists p = true) ∧
    (env.fsExists p = false →
      getTsConfig env request.file request.tsconfigPath = none ∧
      (handleAnalysisRequest env st request).1 = EMPTY_ANSWER) := by
  rw [hp]
  constructor
  · constructor
    · intro h
      by_cases he : env.fsExists p = true
      · exact he
      · rw [getTsConfig] at h
        rw [if_neg he] at h
        exact absurd h (by simp)
    · intro he
      simp [getTsConfig, he]
  · intro he
    have hg : getTsConfig env request.file (some p) = none := by
      simp [getTsConfig, he]
    refine ⟨hg, ?_⟩
    have hr : retrieveTsConfig env (newContent st request.file request.content)
        request.file request.tsconfigPath =
        (none, newContent st request.file request.content) := by
      rw [hp]
      simp [retrieveTsConfig, newContent, hmiss, hg]
    simp [handleAnalysisRequest, hr]

/-- Witness for C4 (amended), at the nonexistent explicit path
`/missing.json` against a fresh server state. -/
theorem C4_explicit_path_witness :
    (getTsConfig sampleEnv sampleReqMissing.file sampleReqMissing.tsconfigPath =
        some (.path ["missing.json"]) ↔
      sampleEnv.fsExists ["missing.json"] = true) ∧
    (getTsConfig sampleEnv sampleReqMissing.file sampleReqMissing.tsconfigPath = none ∧
      (handleAnalysisRequest sampleEnv initialState sampleReqMissing).1 =
        EMPTY_ANSWER) :=
  ⟨(C4_explicit_path sampleEnv initialState sampleReqMissing ["missing.json"]
      rfl rfl).1,
    (C4_explicit_path sampleEnv initialState sampleReqMissing ["missing.json"]
      rfl rfl).2 (by decide)⟩

/-- Counterexample to C4 as stated: the claim quantifies over every request,
but after an earlier request has cached a configuration for `/a.ts`, a second
request with the nonexistent explicit path `/missing.json` is served from the
cache — resolution does not report NotFound and the answer is a non-empty
issue list instead of the empty result. -/
theorem C4_counterexample :
    sampleEnv.fsExists ["missing.json"] = false ∧
    sampleReqMissing.tsconfigPath = some ["missing.json"] ∧
    (handleAnalysisRequest sampleEnv
        (handleAnalysisRequest sampleEnv initialState sampleReqExplicit).2.1
        sampleReqMissing).1 ≠ EMPTY_ANSWER := by
  refine ⟨rfl, rfl, ?_⟩
  decide

end SonarTS
